import Mathlib

/-!
# Verification of the `ExerciseImage` entity (wger, `wger/exercises/models/image.py`)

Shallow embedding of the exercise-image persistence entity and its three
behavioral hooks: `save`, `delete`, and `set_author`, plus the upload-path
helper `exercise_image_upload_dir`.

The relational store is modelled as a `List ExerciseImage` of persisted rows.
Django querysets become list filters; the `Meta` default ordering
`['-is_main', 'id']` becomes an explicit minimum-by-key selection; the
template-fragment cache invalidation calls are collected into an output list
of `(fragmentName, localeId)` pairs; `mail.mail_admins(..., fail_silently=True)`
is modelled as a fallible call whose failure is suppressed by the
`fail_silently` flag.  Python attribute lookups that the model does not
define (`self.name`, `self.exercise` — the foreign key is `exercise_base`)
are modelled as failing `Except` computations, since they raise
`AttributeError` at run time.
-/

/-- Moderation status from the submission mixin
(`AbstractSubmissionModel`): pending, accepted or declined. -/
inductive SubmissionStatus where
  | pending
  | accepted
  | declined
deriving DecidableEq, Repr

/-- One persisted exercise-image row.  `id` is the surrogate key,
`exerciseBaseId` the foreign key to the exercise base (the model's only
exercise reference, named `exercise_base` in the source), `isMain` the
main-picture flag (default `false`), and `status` and `licenseAuthor` come
from the submission/license mixins.  The model declares no `name` and no
`exercise` attribute. -/
structure ExerciseImage where
  id : Nat
  exerciseBaseId : Nat
  isMain : Bool
  status : SubmissionStatus
  licenseAuthor : String
deriving DecidableEq, Repr

/-- Queryset `ExerciseImage.objects.filter(exercise_base=b)`. -/
def imagesOf (db : List ExerciseImage) (b : Nat) : List ExerciseImage :=
  db.filter (fun img => img.exerciseBaseId == b)

/-- Queryset `ExerciseImage.objects.accepted().filter(exercise_base=b)`. -/
def acceptedOf (db : List ExerciseImage) (b : Nat) : List ExerciseImage :=
  db.filter (fun img =>
    img.exerciseBaseId == b && img.status == SubmissionStatus.accepted)

/-- Queryset `ExerciseImage.objects.accepted().filter(exercise_base=b, is_main=True)`. -/
def acceptedMainOf (db : List ExerciseImage) (b : Nat) : List ExerciseImage :=
  db.filter (fun img =>
    img.exerciseBaseId == b && img.status == SubmissionStatus.accepted && img.isMain)

/-- Queryset `ExerciseImage.objects.accepted().filter(exercise_base=b, is_main=False)`. -/
def acceptedNonMainOf (db : List ExerciseImage) (b : Nat) : List ExerciseImage :=
  db.filter (fun img =>
    img.exerciseBaseId == b && img.status == SubmissionStatus.accepted && !img.isMain)

/-- The bulk update
`ExerciseImage.objects.filter(exercise_base=b).update(is_main=False)`:
clears the main flag on every row of the base. -/
def bulkClearMain (db : List ExerciseImage) (b : Nat) : List ExerciseImage :=
  db.map (fun img =>
    if img.exerciseBaseId == b then { img with isMain := false } else img)

/-- Call `super().save()`: UPDATE the row matching the record's primary key when it
exists, otherwise INSERT a new row. -/
def persist (db : List ExerciseImage) (r : ExerciseImage) : List ExerciseImage :=
  if db.any (fun img => img.id == r.id) then
    db.map (fun img => if img.id == r.id then r else img)
  else
    db ++ [r]

/-- The four template-fragment names invalidated by the save/delete hooks. -/
def fragmentNames : List String :=
  ["muscle-overview", "exercise-overview", "exercise-overview-mobile", "equipment-overview"]

/-- One full cache-invalidation pass: for every configured language, the four
`delete_template_fragment_cache(name, language.id)` calls, in source order. -/
def cachePass (locales : List Nat) : List (String × Nat) :=
  (locales.map (fun l => fragmentNames.map (fun n => (n, l)))).flatten

/-- Result of a save/delete hook: the new table contents and the cache
invalidation calls issued, in order. -/
structure HookResult where
  db : List ExerciseImage
  cacheCalls : List (String × Nat)
deriving Repr

/-- Hook `ExerciseImage.save`: if the record is flagged main, bulk-clear the flag on
the whole base and re-set it on the record; otherwise, if the base has no
accepted image or no accepted main image, force the record to be main.  Then
invalidate the four cache fragments for every locale and persist. -/
def ExerciseImage.save (locales : List Nat) (db : List ExerciseImage)
    (record : ExerciseImage) : HookResult :=
  let b := record.exerciseBaseId
  let step :=
    if record.isMain then
      (bulkClearMain db b, { record with isMain := true })
    else
      if (acceptedOf db b).length == 0 || (acceptedMainOf db b).length == 0 then
        (db, { record with isMain := true })
      else
        (db, record)
  { db := persist step.1 step.2, cacheCalls := cachePass locales }

/-- Rank of the `-is_main` ordering component: main images sort first. -/
def mainRank (img : ExerciseImage) : Nat :=
  if img.isMain then 0 else 1

/-- Lexicographic comparison on the `Meta` default ordering key
`['-is_main', 'id']`: main images first, then ascending id. -/
def orderKeyLt (a b : ExerciseImage) : Bool :=
  mainRank a < mainRank b || (mainRank a == mainRank b && a.id < b.id)

/-- Fold computing the first element of a queryset under the default
ordering (minimum by `orderKeyLt`, earliest row on ties). -/
def minByOrder (best : ExerciseImage) : List ExerciseImage → ExerciseImage
  | [] => best
  | x :: xs => minByOrder (if orderKeyLt x best then x else best) xs

/-- Selection `queryset[0]` under the `Meta` default ordering `['-is_main', 'id']`. -/
def firstByOrdering : List ExerciseImage → Option ExerciseImage
  | [] => none
  | x :: xs => some (minByOrder x xs)

/-- Removal of the record's row from the table (the DELETE issued by
`super().delete()`). -/
def removeRecord (db : List ExerciseImage) (r : ExerciseImage) : List ExerciseImage :=
  db.filter (fun img => img.id != r.id)

/-- Hook `ExerciseImage.delete`: remove the row, invalidate the caches, then if the
base has no accepted main image but does have accepted non-main images, mark
the first such image (default ordering) as main and re-save it through the
normal save hook. -/
def ExerciseImage.delete (locales : List Nat) (db : List ExerciseImage)
    (record : ExerciseImage) : HookResult :=
  let b := record.exerciseBaseId
  let db := removeRecord db record
  let calls := cachePass locales
  if (acceptedMainOf db b).length == 0 && !((acceptedNonMainOf db b).length == 0) then
    match firstByOrdering (acceptedNonMainOf db b) with
    | some image =>
        let r := ExerciseImage.save locales db { image with isMain := true }
        { db := r.db, cacheCalls := calls ++ r.cacheCalls }
    | none => { db := db, cacheCalls := calls }
  else
    { db := db, cacheCalls := calls }

/-- Method `ExerciseImage.get_owner_object`: always `False` (no owner). -/
def ExerciseImage.get_owner_object (_record : ExerciseImage) : Bool :=
  false

/-- The requesting user and request metadata consumed by `set_author`:
the `exercises.add_exerciseimage` permission check, `request.user.username`
and `request.get_host()`. -/
structure Request where
  hasAddPerm : Bool
  username : String
  host : String

/-- Value `request.get_host().split(':')[0]`: the host name without the port. -/
def hostDomain (host : String) : String :=
  (host.splitOn ":").headD ""

/-- Call `mail.mail_admins(subject, message, fail_silently=...)`: attempts delivery;
when the transport fails and `failSilently` is set the error is swallowed,
otherwise it propagates. -/
def mail_admins (subject message : String) (failSilently transportOk : Bool) :
    Except String (List (String × String)) :=
  if transportOk then Except.ok [(subject, message)]
  else if failSilently then Except.ok []
  else Except.error "mail transport failure"

/-- Result of `set_author`: the updated record and the number of admin
notification emails attempted. -/
structure SetAuthorResult where
  record : ExerciseImage
  mailAttempts : Nat
deriving Repr

/-- Attribute lookup `self.name` in the notification message: `ExerciseImage`
declares `uuid`, `exercise_base`, `image`, `is_main` and `style`, and its
mixins add only the submission status and license fields, so there is no
`name` attribute and the lookup raises `AttributeError`. -/
def ExerciseImage.name_attr (_record : ExerciseImage) : Except String String :=
  Except.error "AttributeError: ExerciseImage object has no attribute name"

/-- Attribute lookup `self.exercise` in the notification message: the model's
foreign key is `exercise_base`, not `exercise`, so the lookup raises
`AttributeError`. -/
def ExerciseImage.exercise_attr (_record : ExerciseImage) : Except String String :=
  Except.error "AttributeError: ExerciseImage object has no attribute exercise"

/-- Hook `ExerciseImage.set_author`: a user holding the add-permission gets an
accepted record with the host domain as default license author.  For anyone
else the status is left untouched and the license author defaults to the
username, but building the admin notification message dereferences `self.name`
and `self.exercise`, neither of which exists on the model, so the branch
raises before `mail_admins` is ever reached; only a transport failure inside
`mail_admins` would be swallowed by `fail_silently`. -/
def ExerciseImage.set_author (record : ExerciseImage) (request : Request)
    (transportOk : Bool) : Except String SetAuthorResult :=
  if request.hasAddPerm then
    let record := { record with status := SubmissionStatus.accepted }
    let record :=
      if record.licenseAuthor == "" then
        { record with licenseAuthor := hostDomain request.host }
      else record
    Except.ok { record := record, mailAttempts := 0 }
  else
    let record :=
      if record.licenseAuthor == "" then
        { record with licenseAuthor := request.username }
      else record
    let subject := "New user submitted image"
    match ExerciseImage.name_attr record with
    | Except.error e => Except.error e
    | Except.ok imageName =>
      match ExerciseImage.exercise_attr record with
      | Except.error e => Except.error e
      | Except.ok exerciseName =>
        let message := "The user " ++ request.username ++ " submitted a new image \""
          ++ imageName ++ "\" for exercise " ++ exerciseName ++ "."
        match mail_admins subject message true transportOk with
        | Except.ok _ => Except.ok { record := record, mailAttempts := 1 }
        | Except.error e => Except.error e

/-- Index of the last `'.'` in a character list (`str.rfind('.')`),
`none` when absent. -/
def rfindDot : List Char → Option Nat
  | [] => none
  | c :: cs =>
      match rfindDot cs with
      | some i => some (i + 1)
      | none => if c == '.' then some 0 else none

/-- Semantics of `pathlib.PurePath.suffix` on a bare file name: the substring from the last
dot, unless that dot is the first or last character. -/
def suffixChars (nm : List Char) : List Char :=
  match rfindDot nm with
  | some i => if 0 < i && i < nm.length - 1 then nm.drop i else []
  | none => []

/-- Split of a character list on a separator character (the component split
underlying `pathlib.PurePath`). -/
def splitOnChar (sep : Char) : List Char → List (List Char)
  | [] => [[]]
  | c :: cs =>
    match splitOnChar sep cs with
    | [] => [[c]]
    | h :: t => if c == sep then [] :: h :: t else (c :: h) :: t

/-- The final path component (`pathlib.PurePath.name`): the last nonempty
segment when splitting on `'/'`. -/
def lastComponent (filename : String) : List Char :=
  ((splitOnChar '/' filename.data).filter (fun s => !s.isEmpty)).getLastD []

/-- Semantics of `pathlib.Path(filename).suffix`. -/
def pathSuffix (filename : String) : String :=
  String.mk (suffixChars (lastComponent filename))

/-- Helper `exercise_image_upload_dir`: storage path
`exercise-images/<exerciseBaseId>/<uuid><ext>`. -/
def exercise_image_upload_dir (baseId : Nat) (uuidStr : String)
    (filename : String) : String :=
  "exercise-images/" ++ toString baseId ++ "/" ++ uuidStr ++ pathSuffix filename

/-- The §3 main-image invariant for one exercise base: at most one accepted
image of the base is main, and if any accepted image exists, exactly one
accepted image is main. -/
def mainInvariant (db : List ExerciseImage) (b : Nat) : Prop :=
  (acceptedMainOf db b).length ≤ 1 ∧
    (1 ≤ (acceptedOf db b).length → (acceptedMainOf db b).length = 1)

instance (db : List ExerciseImage) (b : Nat) : Decidable (mainInvariant db b) := by
  unfold mainInvariant
  infer_instance

/-! ## Basic lemmas about the store operations -/

theorem persist_of_fresh (db : List ExerciseImage) (r : ExerciseImage)
    (h : ∀ img ∈ db, img.id ≠ r.id) : persist db r = db ++ [r] := by
  have hany : db.any (fun img => img.id == r.id) = false := by
    simp only [List.any_eq_false, beq_iff_eq]
    exact h
  simp [persist, hany]

theorem persist_mem (db : List ExerciseImage) (r : ExerciseImage) :
    ∀ img ∈ persist db r, img = r ∨ (img ∈ db ∧ img.id ≠ r.id) := by
  intro img hmem
  unfold persist at hmem
  by_cases hany : db.any (fun i => i.id == r.id) = true
  · rw [if_pos hany] at hmem
    rcases List.mem_map.mp hmem with ⟨img0, h0, heq⟩
    by_cases hid : img0.id = r.id
    · left
      rw [← heq]
      simp [hid]
    · right
      have himg : img = img0 := by
        rw [← heq]
        simp [hid]
      rw [himg]
      exact ⟨h0, hid⟩
  · rw [if_neg hany] at hmem
    rcases List.mem_append.mp hmem with hdb | hr
    · right
      refine ⟨hdb, ?_⟩
      have := List.any_eq_false.mp (Bool.not_eq_true _ ▸ hany) img hdb
      simpa using this
    · left
      simpa using hr

theorem persist_id_eq (db : List ExerciseImage) (r : ExerciseImage) :
    ∀ img ∈ persist db r, img.id = r.id → img = r := by
  intro img hmem hid
  rcases persist_mem db r img hmem with h | ⟨-, hne⟩
  · exact h
  · exact absurd hid hne

theorem persist_exists_self (db : List ExerciseImage) (r : ExerciseImage) :
    ∃ img ∈ persist db r, img = r := by
  unfold persist
  by_cases hany : db.any (fun i => i.id == r.id) = true
  · rw [if_pos hany]
    rcases List.any_eq_true.mp hany with ⟨img0, h0, hid⟩
    refine ⟨r, List.mem_map.mpr ⟨img0, h0, ?_⟩, rfl⟩
    simp [hid]
  · rw [if_neg hany]
    exact ⟨r, by simp, rfl⟩

theorem bulkClearMain_not_main (db : List ExerciseImage) (b : Nat) :
    ∀ img ∈ bulkClearMain db b, img.exerciseBaseId = b → img.isMain = false := by
  intro img hmem hbase
  rcases List.mem_map.mp hmem with ⟨img0, h0, heq⟩
  by_cases hb : img0.exerciseBaseId = b
  · rw [← heq]
    simp [hb]
  · exfalso
    have himg : img = img0 := by
      rw [← heq]
      simp [hb]
    exact hb (himg ▸ hbase)

theorem bulkClearMain_fresh (db : List ExerciseImage) (b i : Nat)
    (h : ∀ img ∈ db, img.id ≠ i) : ∀ img ∈ bulkClearMain db b, img.id ≠ i := by
  intro img hmem
  rcases List.mem_map.mp hmem with ⟨img0, h0, heq⟩
  have hid : img.id = img0.id := by
    rw [← heq]
    by_cases hb : img0.exerciseBaseId = b <;> simp [hb]
  rw [hid]
  exact h img0 h0

theorem acceptedOf_eq_nil_of_no_base (db : List ExerciseImage) (b : Nat)
    (h : ∀ img ∈ db, img.exerciseBaseId ≠ b) : acceptedOf db b = [] := by
  apply List.filter_eq_nil_iff.mpr
  intro img hmem
  simp only [Bool.and_eq_true, beq_iff_eq, not_and]
  intro h1
  exact absurd h1 (h img hmem)

theorem acceptedMainOf_eq_nil_of_acceptedOf (db : List ExerciseImage) (b : Nat)
    (h : acceptedOf db b = []) : acceptedMainOf db b = [] := by
  apply List.filter_eq_nil_iff.mpr
  intro img hmem
  have h2 := List.filter_eq_nil_iff.mp h img hmem
  simp only [Bool.and_eq_true, beq_iff_eq, not_and] at h2
  simp only [Bool.and_eq_true, beq_iff_eq]
  rintro ⟨⟨hb, hs⟩, -⟩
  exact h2 hb hs

theorem acceptedNonMainOf_eq_nil_of_acceptedOf (db : List ExerciseImage) (b : Nat)
    (h : acceptedOf db b = []) : acceptedNonMainOf db b = [] := by
  apply List.filter_eq_nil_iff.mpr
  intro img hmem
  have h2 := List.filter_eq_nil_iff.mp h img hmem
  simp only [Bool.and_eq_true, beq_iff_eq, not_and] at h2
  simp only [Bool.and_eq_true, beq_iff_eq]
  rintro ⟨⟨hb, hs⟩, -⟩
  exact h2 hb hs

theorem acceptedMainOf_bulkClearMain (db : List ExerciseImage) (b : Nat) :
    acceptedMainOf (bulkClearMain db b) b = [] := by
  apply List.filter_eq_nil_iff.mpr
  intro img hmem
  by_cases hbase : img.exerciseBaseId = b
  · have := bulkClearMain_not_main db b img hmem hbase
    simp [hbase, this]
  · simp [hbase]

theorem save_db_of_main (locales : List Nat) (db : List ExerciseImage)
    (r : ExerciseImage) (hr : r.isMain = true) :
    (ExerciseImage.save locales db r).db =
      persist (bulkClearMain db r.exerciseBaseId) { r with isMain := true } := by
  simp [ExerciseImage.save, hr]

theorem save_db_of_forced (locales : List Nat) (db : List ExerciseImage)
    (r : ExerciseImage) (hr : r.isMain = false)
    (hcond : (acceptedOf db r.exerciseBaseId).length = 0 ∨
      (acceptedMainOf db r.exerciseBaseId).length = 0) :
    (ExerciseImage.save locales db r).db = persist db { r with isMain := true } := by
  rcases hcond with h | h <;> simp [ExerciseImage.save, hr, h]

theorem save_db_of_skip (locales : List Nat) (db : List ExerciseImage)
    (r : ExerciseImage) (hr : r.isMain = false)
    (h1 : (acceptedOf db r.exerciseBaseId).length ≠ 0)
    (h2 : (acceptedMainOf db r.exerciseBaseId).length ≠ 0) :
    (ExerciseImage.save locales db r).db = persist db r := by
  simp [ExerciseImage.save, hr, h1, h2]

theorem save_cacheCalls (locales : List Nat) (db : List ExerciseImage)
    (r : ExerciseImage) : (ExerciseImage.save locales db r).cacheCalls = cachePass locales :=
  rfl

/-- C3: saving a newly created image into an exercise base that has no prior
images persists that image with `isMain = true`, for both possible values of
the submitted `isMain` flag (the flag is universally quantified as a field of
the record). -/
theorem save_first_image_is_main (locales : List Nat) (db : List ExerciseImage)
    (r : ExerciseImage)
    (hbase : ∀ img ∈ db, img.exerciseBaseId ≠ r.exerciseBaseId)
    (_hid : ∀ img ∈ db, img.id ≠ r.id) :
    (∃ img ∈ (ExerciseImage.save locales db r).db, img.id = r.id) ∧
      ∀ img ∈ (ExerciseImage.save locales db r).db, img.id = r.id → img.isMain = true := by
  have key : ∀ D : List ExerciseImage,
      (∃ img ∈ persist D { r with isMain := true }, img.id = r.id) ∧
        ∀ img ∈ persist D { r with isMain := true }, img.id = r.id → img.isMain = true := by
    intro D
    constructor
    · rcases persist_exists_self D { r with isMain := true } with ⟨img, hm, he⟩
      exact ⟨img, hm, by rw [he]⟩
    · intro img hm hidm
      have he := persist_id_eq D { r with isMain := true } img hm hidm
      rw [he]
  by_cases hr : r.isMain = true
  · rw [save_db_of_main locales db r hr]
    exact key _
  · have hr' : r.isMain = false := by simpa using hr
    have hacc : acceptedOf db r.exerciseBaseId = [] :=
      acceptedOf_eq_nil_of_no_base db _ hbase
    rw [save_db_of_forced locales db r hr' (Or.inl (by rw [hacc]; rfl))]
    exact key _

/-- Witness for C3 at a concrete input: first image of base 3, submitted with
`isMain = false`, ends up persisted with `isMain = true`. -/
theorem save_first_image_is_main_witness :
    (∃ img ∈ (ExerciseImage.save [0] []
        ⟨5, 3, false, SubmissionStatus.pending, ""⟩).db, img.id = 5) ∧
      ∀ img ∈ (ExerciseImage.save [0] []
        ⟨5, 3, false, SubmissionStatus.pending, ""⟩).db,
        img.id = 5 → img.isMain = true :=
  save_first_image_is_main [0] [] ⟨5, 3, false, SubmissionStatus.pending, ""⟩
    (by intro img h; simp at h) (by intro img h; simp at h)

/-- C4: saving a record flagged as main clears the main flag on every other
image of the same exercise base (the bulk update) and persists the record
itself with `isMain = true`. -/
theorem save_main_clears_others (locales : List Nat) (db : List ExerciseImage)
    (r : ExerciseImage) (h : r.isMain = true) :
    (∀ img ∈ (ExerciseImage.save locales db r).db,
        img.id ≠ r.id → img.exerciseBaseId = r.exerciseBaseId → img.isMain = false) ∧
      (∀ img ∈ (ExerciseImage.save locales db r).db, img.id = r.id → img.isMain = true) ∧
      ∃ img ∈ (ExerciseImage.save locales db r).db, img.id = r.id := by
  rw [save_db_of_main locales db r h]
  refine ⟨?_, ?_, ?_⟩
  · intro img hm hne hbase
    rcases persist_mem _ _ img hm with he | ⟨hmem, -⟩
    · exact absurd (by rw [he]) hne
    · exact bulkClearMain_not_main db r.exerciseBaseId img hmem hbase
  · intro img hm hide
    have he := persist_id_eq _ _ img hm hide
    rw [he]
  · rcases persist_exists_self _ _ with ⟨img, hm, he⟩
    exact ⟨img, hm, by rw [he]⟩

/-- Witness for C4 at a concrete input: explicitly saving a second image of
base 1 with `isMain = true` clears the previously main image with id 1. -/
theorem save_main_clears_others_witness :
    (∀ img ∈ (ExerciseImage.save [1]
        [⟨1, 1, true, SubmissionStatus.accepted, ""⟩]
        ⟨2, 1, true, SubmissionStatus.accepted, ""⟩).db,
        img.id ≠ 2 → img.exerciseBaseId = 1 → img.isMain = false) ∧
      (∀ img ∈ (ExerciseImage.save [1]
        [⟨1, 1, true, SubmissionStatus.accepted, ""⟩]
        ⟨2, 1, true, SubmissionStatus.accepted, ""⟩).db,
        img.id = 2 → img.isMain = true) ∧
      ∃ img ∈ (ExerciseImage.save [1]
        [⟨1, 1, true, SubmissionStatus.accepted, ""⟩]
        ⟨2, 1, true, SubmissionStatus.accepted, ""⟩).db, img.id = 2 :=
  save_main_clears_others [1] [⟨1, 1, true, SubmissionStatus.accepted, ""⟩]
    ⟨2, 1, true, SubmissionStatus.accepted, ""⟩ rfl

/-- C10: when the exercise base has zero accepted images, saving a non-main
record forces `isMain = true` on it even though its status is not accepted
(pending or declined), because the self-healing check counts only accepted
images; the persisted row is a non-accepted main image. -/
theorem save_forces_main_on_nonaccepted (locales : List Nat) (db : List ExerciseImage)
    (r : ExerciseImage) (hst : r.status ≠ SubmissionStatus.accepted)
    (hm : r.isMain = false) (hacc : acceptedOf db r.exerciseBaseId = []) :
    (∃ img ∈ (ExerciseImage.save locales db r).db,
        img.id = r.id ∧ img.isMain = true ∧ img.status ≠ SubmissionStatus.accepted) ∧
      ∀ img ∈ (ExerciseImage.save locales db r).db, img.id = r.id →
        img.isMain = true ∧ img.status ≠ SubmissionStatus.accepted := by
  rw [save_db_of_forced locales db r hm (Or.inl (by rw [hacc]; rfl))]
  constructor
  · rcases persist_exists_self db { r with isMain := true } with ⟨img, hmem, he⟩
    refine ⟨img, hmem, by rw [he], by rw [he], ?_⟩
    rw [he]
    exact hst
  · intro img hmem hid
    have he := persist_id_eq _ _ img hmem hid
    refine ⟨by rw [he], ?_⟩
    rw [he]
    exact hst

/-- Witness for C10 at a concrete input: a declined image saved into a base
whose only other image is pending becomes the persisted main image. -/
theorem save_forces_main_on_nonaccepted_witness :
    (∃ img ∈ (ExerciseImage.save [0]
        [⟨1, 1, true, SubmissionStatus.pending, ""⟩]
        ⟨2, 1, false, SubmissionStatus.declined, ""⟩).db,
        img.id = 2 ∧ img.isMain = true ∧ img.status ≠ SubmissionStatus.accepted) ∧
      ∀ img ∈ (ExerciseImage.save [0]
        [⟨1, 1, true, SubmissionStatus.pending, ""⟩]
        ⟨2, 1, false, SubmissionStatus.declined, ""⟩).db,
        img.id = 2 → img.isMain = true ∧ img.status ≠ SubmissionStatus.accepted :=
  save_forces_main_on_nonaccepted [0] [⟨1, 1, true, SubmissionStatus.pending, ""⟩]
    ⟨2, 1, false, SubmissionStatus.declined, ""⟩ (by decide) rfl (by decide)

/-! ## C1: the main-image invariant after save -/

theorem acceptedOf_append (db1 db2 : List ExerciseImage) (b : Nat) :
    acceptedOf (db1 ++ db2) b = acceptedOf db1 b ++ acceptedOf db2 b := by
  simp [acceptedOf, List.filter_append]

theorem acceptedMainOf_append (db1 db2 : List ExerciseImage) (b : Nat) :
    acceptedMainOf (db1 ++ db2) b = acceptedMainOf db1 b ++ acceptedMainOf db2 b := by
  simp [acceptedMainOf, List.filter_append]

/-- C1 counterexample: the claim as stated fails on the code.  The base 1
holds one accepted main image (id 1); saving a pending image (id 2) flagged
`isMain = true` bulk-clears the accepted image's flag, so after the save the
base has an accepted image but no accepted main image. -/
theorem save_main_invariant_counterexample :
    ¬ mainInvariant
        (ExerciseImage.save [0]
          [⟨1, 1, true, SubmissionStatus.accepted, ""⟩]
          ⟨2, 1, true, SubmissionStatus.pending, ""⟩).db 1 := by
  decide

/-- C1 (amended): for a newly created record (id not yet present) that is
accepted or submitted with `isMain = false`, if the main-image invariant held
for the record's exercise base before the save, it holds after `save`
returns (single-request execution). -/
theorem save_preserves_main_invariant (locales : List Nat) (db : List ExerciseImage)
    (r : ExerciseImage)
    (hfresh : ∀ img ∈ db, img.id ≠ r.id)
    (hok : r.status = SubmissionStatus.accepted ∨ r.isMain = false)
    (hinv : mainInvariant db r.exerciseBaseId) :
    mainInvariant (ExerciseImage.save locales db r).db r.exerciseBaseId := by
  by_cases hr : r.isMain = true
  · have hacc : r.status = SubmissionStatus.accepted := by
      rcases hok with h | h
      · exact h
      · rw [hr] at h
        cases h
    rw [save_db_of_main locales db r hr]
    rw [persist_of_fresh (bulkClearMain db r.exerciseBaseId) { r with isMain := true }
      (bulkClearMain_fresh db r.exerciseBaseId r.id hfresh)]
    have hsingle : acceptedMainOf [{ r with isMain := true }] r.exerciseBaseId =
        [{ r with isMain := true }] := by
      simp [acceptedMainOf, List.filter, hacc]
    have hmain : acceptedMainOf (bulkClearMain db r.exerciseBaseId ++
        [{ r with isMain := true }]) r.exerciseBaseId = [{ r with isMain := true }] := by
      rw [acceptedMainOf_append, acceptedMainOf_bulkClearMain, hsingle, List.nil_append]
    unfold mainInvariant
    rw [hmain]
    exact ⟨le_refl 1, fun _ => rfl⟩
  · have hr' : r.isMain = false := by simpa using hr
    by_cases hA : (acceptedOf db r.exerciseBaseId).length = 0
    · rw [save_db_of_forced locales db r hr' (Or.inl hA)]
      rw [persist_of_fresh db { r with isMain := true } hfresh]
      have hAnil : acceptedOf db r.exerciseBaseId = [] := List.length_eq_zero.mp hA
      have hMnil := acceptedMainOf_eq_nil_of_acceptedOf db _ hAnil
      by_cases hs : r.status = SubmissionStatus.accepted
      · have h1 : acceptedOf (db ++ [{ r with isMain := true }]) r.exerciseBaseId =
            [{ r with isMain := true }] := by
          rw [acceptedOf_append, hAnil, List.nil_append]
          simp [acceptedOf, List.filter, hs]
        have h2 : acceptedMainOf (db ++ [{ r with isMain := true }]) r.exerciseBaseId =
            [{ r with isMain := true }] := by
          rw [acceptedMainOf_append, hMnil, List.nil_append]
          simp [acceptedMainOf, List.filter, hs]
        unfold mainInvariant
        rw [h1, h2]
        exact ⟨le_refl 1, fun _ => rfl⟩
      · have hsb : (r.status == SubmissionStatus.accepted) = false :=
          beq_eq_false_iff_ne.mpr hs
        have h1 : acceptedOf (db ++ [{ r with isMain := true }]) r.exerciseBaseId = [] := by
          rw [acceptedOf_append, hAnil, List.nil_append]
          simp [acceptedOf, List.filter, hsb]
        have h2 : acceptedMainOf (db ++ [{ r with isMain := true }]) r.exerciseBaseId = [] := by
          rw [acceptedMainOf_append, hMnil, List.nil_append]
          simp [acceptedMainOf, List.filter, hsb]
        unfold mainInvariant
        rw [h1, h2]
        refine ⟨by simp, ?_⟩
        intro habs
        simp at habs
    · by_cases hM : (acceptedMainOf db r.exerciseBaseId).length = 0
      · have := hinv.2 (Nat.one_le_iff_ne_zero.mpr hA)
        omega
      · rw [save_db_of_skip locales db r hr' hA hM]
        rw [persist_of_fresh db r hfresh]
        have h2 : acceptedMainOf (db ++ [r]) r.exerciseBaseId =
            acceptedMainOf db r.exerciseBaseId := by
          rw [acceptedMainOf_append]
          simp [acceptedMainOf, List.filter, hr']
        unfold mainInvariant
        rw [h2]
        exact ⟨hinv.1, fun _ => hinv.2 (Nat.one_le_iff_ne_zero.mpr hA)⟩

/-- Witness for the amended C1 at a concrete input: a fresh pending non-main
image saved into a base holding one accepted main image preserves the
invariant. -/
theorem save_preserves_main_invariant_witness :
    (∀ img ∈ ([⟨1, 1, true, SubmissionStatus.accepted, ""⟩] : List ExerciseImage),
        img.id ≠ 2) ∧
      mainInvariant [⟨1, 1, true, SubmissionStatus.accepted, ""⟩] 1 ∧
      mainInvariant (ExerciseImage.save [0]
        [⟨1, 1, true, SubmissionStatus.accepted, ""⟩]
        ⟨2, 1, false, SubmissionStatus.pending, ""⟩).db 1 :=
  ⟨by decide, by decide,
    save_preserves_main_invariant [0]
      [⟨1, 1, true, SubmissionStatus.accepted, ""⟩]
      ⟨2, 1, false, SubmissionStatus.pending, ""⟩
      (by decide) (Or.inr rfl) (by decide)⟩

/-! ## C2 and C7: author/status assignment on submission -/

/-- C2: the claim describes the intended behavior, but the untrusted branch
of `set_author` never reaches the admin notification: after defaulting the
license author, building the message dereferences the nonexistent `name`
attribute (and `exercise`; the foreign key is `exercise_base`), so an
`AttributeError` propagates to the caller — zero notifications are attempted
and the submission does not complete.  The `fail_silently` flag protects only
the mail transport, which is never reached. -/
theorem set_author_untrusted_attribute_error (record : ExerciseImage)
    (username host : String) (transportOk : Bool) :
    ExerciseImage.set_author record ⟨false, username, host⟩ transportOk =
      Except.error "AttributeError: ExerciseImage object has no attribute name" := by
  by_cases hla : record.licenseAuthor = "" <;>
    simp [ExerciseImage.set_author, ExerciseImage.name_attr, hla]

/-- C7: for a user holding the add-exerciseimage permission, `set_author` sets
the status to accepted, defaults an empty `licenseAuthor` to the request's
host domain name (host without the port), leaves a non-empty `licenseAuthor`
unchanged, and attempts no admin notification. -/
theorem set_author_trusted (record : ExerciseImage) (request : Request)
    (transportOk : Bool) (hperm : request.hasAddPerm = true) :
    ∃ res, ExerciseImage.set_author record request transportOk = Except.ok res ∧
      res.record.status = SubmissionStatus.accepted ∧
      (record.licenseAuthor = "" → res.record.licenseAuthor = hostDomain request.host) ∧
      (record.licenseAuthor ≠ "" → res.record.licenseAuthor = record.licenseAuthor) ∧
      res.mailAttempts = 0 := by
  by_cases hla : record.licenseAuthor = ""
  · refine ⟨SetAuthorResult.mk
      { record with status := SubmissionStatus.accepted,
                    licenseAuthor := hostDomain request.host } 0,
      ?_, rfl, fun _ => rfl, fun h => absurd hla h, rfl⟩
    simp [ExerciseImage.set_author, hperm, hla]
  · refine ⟨SetAuthorResult.mk { record with status := SubmissionStatus.accepted } 0,
      ?_, rfl, fun h => absurd h hla, fun _ => rfl, rfl⟩
    simp [ExerciseImage.set_author, hperm, hla]

/-- Witness for C7 at a concrete input: a trusted submission with empty
license author gets status accepted and the host domain without the port. -/
theorem set_author_trusted_witness :
    ∃ res, ExerciseImage.set_author ⟨7, 3, false, SubmissionStatus.pending, ""⟩
        ⟨true, "joe", "example.com:8000"⟩ true = Except.ok res ∧
      res.record.status = SubmissionStatus.accepted ∧
      ((⟨7, 3, false, SubmissionStatus.pending, ""⟩ : ExerciseImage).licenseAuthor = "" →
        res.record.licenseAuthor = hostDomain "example.com:8000") ∧
      ((⟨7, 3, false, SubmissionStatus.pending, ""⟩ : ExerciseImage).licenseAuthor ≠ "" →
        res.record.licenseAuthor = "") ∧
      res.mailAttempts = 0 :=
  set_author_trusted ⟨7, 3, false, SubmissionStatus.pending, ""⟩
    ⟨true, "joe", "example.com:8000"⟩ true rfl

/-! ## C6 and C8: delete without repair, and cache-invalidation accounting -/

/-- C6: when zero accepted images remain for the base after the deletion, the
delete hook performs no repair: the resulting table is exactly the table with
the record's row removed (no remaining image is modified) and only the single
cache-invalidation pass of the delete hook itself is issued (no nested save). -/
theorem delete_no_accepted_no_repair (locales : List Nat) (db : List ExerciseImage)
    (r : ExerciseImage)
    (h : acceptedOf (removeRecord db r) r.exerciseBaseId = []) :
    (ExerciseImage.delete locales db r).db = removeRecord db r ∧
      (ExerciseImage.delete locales db r).cacheCalls = cachePass locales := by
  have h2 := acceptedNonMainOf_eq_nil_of_acceptedOf _ _ h
  constructor <;> simp [ExerciseImage.delete, h2]

/-- Witness for C6 at a concrete input: deleting the only image of base 1
leaves the base with zero images and takes no repair action. -/
theorem delete_no_accepted_no_repair_witness :
    (ExerciseImage.delete [9] [⟨1, 1, true, SubmissionStatus.accepted, ""⟩]
        ⟨1, 1, true, SubmissionStatus.accepted, ""⟩).db =
      removeRecord [⟨1, 1, true, SubmissionStatus.accepted, ""⟩]
        ⟨1, 1, true, SubmissionStatus.accepted, ""⟩ ∧
      (ExerciseImage.delete [9] [⟨1, 1, true, SubmissionStatus.accepted, ""⟩]
        ⟨1, 1, true, SubmissionStatus.accepted, ""⟩).cacheCalls = cachePass [9] :=
  delete_no_accepted_no_repair [9] [⟨1, 1, true, SubmissionStatus.accepted, ""⟩]
    ⟨1, 1, true, SubmissionStatus.accepted, ""⟩ (by decide)

theorem cachePass_cons (l : Nat) (ls : List Nat) :
    cachePass (l :: ls) = fragmentNames.map (fun n => (n, l)) ++ cachePass ls := by
  simp [cachePass]

theorem cachePass_length (locales : List Nat) :
    (cachePass locales).length = 4 * locales.length := by
  induction locales with
  | nil => rfl
  | cons l ls ih =>
    rw [cachePass_cons, List.length_append, ih]
    simp [fragmentNames]
    omega

theorem cachePass_count (locales : List Nat) (nm : String) (l : Nat) :
    (cachePass locales).count (nm, l) =
      (if nm ∈ fragmentNames then 1 else 0) * locales.count l := by
  induction locales with
  | nil => simp [cachePass]
  | cons l0 ls ih =>
    rw [cachePass_cons, List.count_append, ih]
    have hblock : (fragmentNames.map (fun n => (n, l0))).count (nm, l) =
        if nm ∈ fragmentNames ∧ l = l0 then 1 else 0 := by
      by_cases h0 : l = l0
      · subst h0
        by_cases h1 : nm ∈ fragmentNames
        · simp only [fragmentNames, List.mem_cons, List.not_mem_nil, or_false] at h1
          rcases h1 with rfl | rfl | rfl | rfl <;>
            simp [fragmentNames, List.count_cons]
        · simp only [fragmentNames, List.mem_cons, List.not_mem_nil, or_false] at h1
          push_neg at h1
          obtain ⟨hA, hB, hC, hD⟩ := h1
          simp [fragmentNames, List.count_cons, hA, hB, hC, hD]
      · simp [fragmentNames, List.count_cons, h0]
    rw [hblock]
    by_cases hf : nm ∈ fragmentNames
    · by_cases hl : l = l0
      · simp [hf, hl, List.count_cons]
        omega
      · simp [hf, hl, List.count_cons]
    · by_cases hl : l = l0
      · simp [hf, hl, List.count_cons]
      · simp [hf, hl, List.count_cons]

/-- C8: each hook invocation issues exactly one cache-invalidation pass over
the four fragment names: the save hook's calls are exactly one pass,
unconditionally; the delete hook's calls are one pass, or two passes when it
re-saves a promoted image (the nested save hook's own pass) — 4 × localeCount
calls per hook invocation, and each fragment-locale pair is invalidated once
per occurrence of the locale in the configuration. -/
theorem cache_invalidation_per_hook (locales : List Nat) (db : List ExerciseImage)
    (r : ExerciseImage) :
    (ExerciseImage.save locales db r).cacheCalls = cachePass locales ∧
      ((ExerciseImage.delete locales db r).cacheCalls = cachePass locales ∨
        (ExerciseImage.delete locales db r).cacheCalls =
          cachePass locales ++ cachePass locales) ∧
      (cachePass locales).length = 4 * locales.length ∧
      ∀ nm lc, (cachePass locales).count (nm, lc) =
        (if nm ∈ fragmentNames then 1 else 0) * locales.count lc := by
  refine ⟨rfl, ?_, cachePass_length locales, fun nm lc => cachePass_count locales nm lc⟩
  simp only [ExerciseImage.delete]
  split
  · split
    · right; rfl
    · left; rfl
  · left; rfl


/-! ## C9: the upload path -/

theorem rfindDot_eq_none (l : List Char) (h : '.' ∉ l) : rfindDot l = none := by
  induction l with
  | nil => rfl
  | cons c cs ih =>
    have hc : c ≠ '.' := fun hh => h (hh ▸ List.mem_cons_self c cs)
    have hcs : '.' ∉ cs := fun hh => h (List.mem_cons_of_mem c hh)
    have hcb : (c == '.') = false := beq_eq_false_iff_ne.mpr hc
    simp [rfindDot, ih hcs, hcb]

theorem rfindDot_head (l : List Char) (i : Nat) (h : rfindDot l = some i) :
    i < l.length ∧ (l.drop i).head? = some '.' := by
  induction l generalizing i with
  | nil => cases h
  | cons c cs ih =>
    rw [rfindDot] at h
    cases hcs : rfindDot cs with
    | some j =>
      simp only [hcs] at h
      cases h
      have hj := ih j hcs
      constructor
      · simpa using Nat.succ_lt_succ hj.1
      · simpa using hj.2
    | none =>
      simp only [hcs] at h
      by_cases hcb : (c == '.') = true
      · rw [if_pos hcb] at h
        cases h
        refine ⟨by simp, ?_⟩
        have hc : c = '.' := beq_iff_eq.mp hcb
        simp [hc]
      · rw [if_neg hcb] at h
        cases h

/-- C9: the storage path is exactly
`exercise-images/<exerciseBaseId>/<uuid><ext>` where `<ext>` is the original
filename's extension in the `pathlib` sense: empty when the file name
contains no usable dot, and otherwise a dot-initial suffix of the file name,
preserved verbatim. -/
theorem upload_dir_format (baseId : Nat) (uuidStr filename : String) :
    exercise_image_upload_dir baseId uuidStr filename =
      "exercise-images/" ++ toString baseId ++ "/" ++ uuidStr ++ pathSuffix filename ∧
      ('.' ∉ lastComponent filename → pathSuffix filename = "") ∧
      (pathSuffix filename ≠ "" →
        (pathSuffix filename).data.head? = some '.' ∧
          (pathSuffix filename).data <:+ lastComponent filename) := by
  refine ⟨rfl, ?_, ?_⟩
  · intro h
    unfold pathSuffix suffixChars
    rw [rfindDot_eq_none _ h]
  · intro hne
    cases hfd : rfindDot (lastComponent filename) with
    | none =>
        exfalso
        apply hne
        unfold pathSuffix suffixChars
        rw [hfd]
    | some i =>
        by_cases hcond : (decide (0 < i) &&
            decide (i < (lastComponent filename).length - 1)) = true
        · have hps : pathSuffix filename =
              String.mk ((lastComponent filename).drop i) := by
            simp only [pathSuffix, suffixChars, hfd, hcond, if_true]
          rw [hps]
          constructor
          · simpa using (rfindDot_head _ i hfd).2
          · simpa using List.drop_suffix i (lastComponent filename)
        · exfalso
          apply hne
          have hcf : (decide (0 < i) &&
              decide (i < (lastComponent filename).length - 1)) = false := by
            simpa using hcond
          simp only [pathSuffix, suffixChars, hfd, hcf, Bool.false_eq_true, if_false]

/-- Witness for C9 at concrete inputs: a `.png` upload keeps its extension
and an extension-less filename yields an empty extension. -/
theorem upload_dir_format_witness :
    exercise_image_upload_dir 42 "abc" "photo.png" = "exercise-images/42/abc.png" ∧
      pathSuffix "noext" = "" := by
  refine ⟨?_, (upload_dir_format 0 "u" "noext").2.1 (by decide)⟩
  rw [(upload_dir_format 42 "abc" "photo.png").1]
  decide

/-! ## C5: promotion of the first accepted non-main image on delete -/

theorem orderKeyLt_iff (a b : ExerciseImage) :
    orderKeyLt a b = true ↔
      (mainRank a < mainRank b ∨ (mainRank a = mainRank b ∧ a.id < b.id)) := by
  simp [orderKeyLt]

theorem orderKeyLt_eq_false_iff (a b : ExerciseImage) :
    orderKeyLt a b = false ↔
      ¬(mainRank a < mainRank b ∨ (mainRank a = mainRank b ∧ a.id < b.id)) := by
  rw [← orderKeyLt_iff]
  cases h : orderKeyLt a b <;> simp

theorem minByOrder_mem (best : ExerciseImage) (l : List ExerciseImage) :
    minByOrder best l = best ∨ minByOrder best l ∈ l := by
  induction l generalizing best with
  | nil => exact Or.inl rfl
  | cons x xs ih =>
    simp only [minByOrder]
    by_cases h : orderKeyLt x best = true
    · rw [if_pos h]
      rcases ih x with h1 | h1
      · right
        rw [h1]
        exact List.mem_cons_self x xs
      · right
        exact List.mem_cons_of_mem x h1
    · rw [if_neg h]
      rcases ih best with h1 | h1
      · left
        exact h1
      · right
        exact List.mem_cons_of_mem x h1

theorem minByOrder_min (best : ExerciseImage) (l : List ExerciseImage) :
    ∀ c, (c = best ∨ c ∈ l) → orderKeyLt c (minByOrder best l) = false := by
  induction l generalizing best with
  | nil =>
    intro c hc
    rcases hc with rfl | hc
    · simp only [minByOrder]
      rw [orderKeyLt_eq_false_iff]
      omega
    · simp at hc
  | cons x xs ih =>
    intro c hc
    simp only [minByOrder]
    by_cases h : orderKeyLt x best = true
    · rw [if_pos h]
      rcases hc with rfl | hc
      · have hx := ih x x (Or.inl rfl)
        rw [orderKeyLt_eq_false_iff] at hx ⊢
        rw [orderKeyLt_iff] at h
        omega
      · rcases List.mem_cons.mp hc with rfl | hmem
        · exact ih _ _ (Or.inl rfl)
        · exact ih x c (Or.inr hmem)
    · rw [if_neg h]
      rcases hc with rfl | hc
      · exact ih _ _ (Or.inl rfl)
      · rcases List.mem_cons.mp hc with rfl | hmem
        · have hb := ih best best (Or.inl rfl)
          have hxb : orderKeyLt c best = false := by
            simpa using h
          rw [orderKeyLt_eq_false_iff] at hb hxb ⊢
          omega
        · exact ih best c (Or.inr hmem)

theorem firstByOrdering_spec (l : List ExerciseImage) (hne : l ≠ []) :
    ∃ w, firstByOrdering l = some w ∧ w ∈ l ∧ ∀ c ∈ l, orderKeyLt c w = false := by
  cases l with
  | nil => exact absurd rfl hne
  | cons x xs =>
    refine ⟨minByOrder x xs, rfl, ?_, ?_⟩
    · rcases minByOrder_mem x xs with h | h
      · rw [h]
        exact List.mem_cons_self x xs
      · exact List.mem_cons_of_mem x h
    · intro c hc
      rcases List.mem_cons.mp hc with rfl | hmem
      · exact minByOrder_min _ xs _ (Or.inl rfl)
      · exact minByOrder_min x xs c (Or.inr hmem)

/-- C5: when, after the deletion, the base still has accepted images but none
of them is flagged main, the delete hook picks the first accepted non-main
image in the default listing order — the candidate with the least id, since
all candidates are non-main — and re-saves it as main through the normal
save hook; afterwards that id is the unique main image of the base. -/
theorem delete_promotes_first (locales : List Nat) (db : List ExerciseImage)
    (r : ExerciseImage)
    (hmain : acceptedMainOf (removeRecord db r) r.exerciseBaseId = [])
    (hsome : acceptedOf (removeRecord db r) r.exerciseBaseId ≠ []) :
    ∃ w, firstByOrdering (acceptedNonMainOf (removeRecord db r) r.exerciseBaseId) =
        some w ∧
      w ∈ acceptedNonMainOf (removeRecord db r) r.exerciseBaseId ∧
      (∀ c ∈ acceptedNonMainOf (removeRecord db r) r.exerciseBaseId, w.id ≤ c.id) ∧
      (∀ img ∈ (ExerciseImage.delete locales db r).db,
        img.exerciseBaseId = r.exerciseBaseId → (img.isMain = true ↔ img.id = w.id)) ∧
      ∃ img ∈ (ExerciseImage.delete locales db r).db,
        img.exerciseBaseId = r.exerciseBaseId ∧ img.isMain = true := by
  have hcand : acceptedNonMainOf (removeRecord db r) r.exerciseBaseId ≠ [] := by
    rcases List.exists_mem_of_ne_nil _ hsome with ⟨img, himg⟩
    have hmem := List.mem_filter.mp himg
    have hpred := hmem.2
    simp only [Bool.and_eq_true, beq_iff_eq] at hpred
    intro hnil
    by_cases him : img.isMain = true
    · have hin : img ∈ acceptedMainOf (removeRecord db r) r.exerciseBaseId := by
        apply List.mem_filter.mpr
        refine ⟨hmem.1, ?_⟩
        simp only [Bool.and_eq_true, beq_iff_eq]
        exact ⟨hpred, him⟩
      rw [hmain] at hin
      exact absurd hin (List.not_mem_nil img)
    · have him' : img.isMain = false := by simpa using him
      have hin : img ∈ acceptedNonMainOf (removeRecord db r) r.exerciseBaseId := by
        apply List.mem_filter.mpr
        refine ⟨hmem.1, ?_⟩
        simp only [Bool.and_eq_true, beq_iff_eq, Bool.not_eq_true']
        exact ⟨hpred, him'⟩
      rw [hnil] at hin
      exact absurd hin (List.not_mem_nil img)
  obtain ⟨w, hfirst, hwmem, hwmin⟩ := firstByOrdering_spec _ hcand
  have hwpred := (List.mem_filter.mp hwmem).2
  simp only [Bool.and_eq_true, beq_iff_eq, Bool.not_eq_true'] at hwpred
  have hwb : w.exerciseBaseId = r.exerciseBaseId := hwpred.1.1
  have hwnm : w.isMain = false := hwpred.2
  have h2 : (acceptedNonMainOf (removeRecord db r) r.exerciseBaseId).length ≠ 0 := by
    intro h0
    exact hcand (List.eq_nil_of_length_eq_zero h0)
  have hC : ((acceptedMainOf (removeRecord db r) r.exerciseBaseId).length == 0 &&
      !((acceptedNonMainOf (removeRecord db r) r.exerciseBaseId).length == 0)) = true := by
    simp [hmain, h2]
  have hdel : (ExerciseImage.delete locales db r).db =
      (ExerciseImage.save locales (removeRecord db r) { w with isMain := true }).db := by
    simp only [ExerciseImage.delete]
    rw [if_pos hC, hfirst]
  refine ⟨w, hfirst, hwmem, ?_, ?_, ?_⟩
  · intro c hcm
    have hcpred := (List.mem_filter.mp hcm).2
    simp only [Bool.and_eq_true, beq_iff_eq, Bool.not_eq_true'] at hcpred
    have hlt := hwmin c hcm
    rw [orderKeyLt_eq_false_iff] at hlt
    have hrc : mainRank c = 1 := by simp [mainRank, hcpred.2]
    have hrw : mainRank w = 1 := by simp [mainRank, hwnm]
    rw [hrc, hrw] at hlt
    omega
  · intro img hmem hbase
    rw [hdel, save_db_of_main locales (removeRecord db r)
      { w with isMain := true } rfl] at hmem
    constructor
    · intro hm
      by_contra hne
      rcases persist_mem _ _ img hmem with he | ⟨hmem', -⟩
      · apply hne
        rw [he]
      · have hb' : img.exerciseBaseId =
            ({ w with isMain := true } : ExerciseImage).exerciseBaseId := by
          rw [hbase]
          exact hwb.symm
        have hcl := bulkClearMain_not_main _ _ img hmem' hb'
        rw [hcl] at hm
        cases hm
    · intro hid
      have he := persist_id_eq _ _ img hmem hid
      rw [he]
  · rcases persist_exists_self (bulkClearMain (removeRecord db r)
        ({ w with isMain := true } : ExerciseImage).exerciseBaseId)
        { w with isMain := true } with ⟨img, hmem, he⟩
    refine ⟨img, ?_, ?_, by rw [he]⟩
    · rw [hdel, save_db_of_main locales (removeRecord db r) { w with isMain := true } rfl]
      exact hmem
    · rw [he]
      exact hwb

/-- Witness for C5 at a concrete input: deleting the accepted main image of
base 1 when two accepted non-main images remain promotes the one with the
least id (id 2) to be the unique main image. -/
theorem delete_promotes_first_witness :
    ∃ w, firstByOrdering (acceptedNonMainOf (removeRecord
        [⟨1, 1, true, SubmissionStatus.accepted, ""⟩,
         ⟨2, 1, false, SubmissionStatus.accepted, ""⟩,
         ⟨3, 1, false, SubmissionStatus.accepted, ""⟩]
        ⟨1, 1, true, SubmissionStatus.accepted, ""⟩) 1) = some w ∧
      w ∈ acceptedNonMainOf (removeRecord
        [⟨1, 1, true, SubmissionStatus.accepted, ""⟩,
         ⟨2, 1, false, SubmissionStatus.accepted, ""⟩,
         ⟨3, 1, false, SubmissionStatus.accepted, ""⟩]
        ⟨1, 1, true, SubmissionStatus.accepted, ""⟩) 1 ∧
      (∀ c ∈ acceptedNonMainOf (removeRecord
        [⟨1, 1, true, SubmissionStatus.accepted, ""⟩,
         ⟨2, 1, false, SubmissionStatus.accepted, ""⟩,
         ⟨3, 1, false, SubmissionStatus.accepted, ""⟩]
        ⟨1, 1, true, SubmissionStatus.accepted, ""⟩) 1, w.id ≤ c.id) ∧
      (∀ img ∈ (ExerciseImage.delete [7]
        [⟨1, 1, true, SubmissionStatus.accepted, ""⟩,
         ⟨2, 1, false, SubmissionStatus.accepted, ""⟩,
         ⟨3, 1, false, SubmissionStatus.accepted, ""⟩]
        ⟨1, 1, true, SubmissionStatus.accepted, ""⟩).db,
        img.exerciseBaseId = 1 → (img.isMain = true ↔ img.id = w.id)) ∧
      ∃ img ∈ (ExerciseImage.delete [7]
        [⟨1, 1, true, SubmissionStatus.accepted, ""⟩,
         ⟨2, 1, false, SubmissionStatus.accepted, ""⟩,
         ⟨3, 1, false, SubmissionStatus.accepted, ""⟩]
        ⟨1, 1, true, SubmissionStatus.accepted, ""⟩).db,
        img.exerciseBaseId = 1 ∧ img.isMain = true :=
  delete_promotes_first [7]
    [⟨1, 1, true, SubmissionStatus.accepted, ""⟩,
     ⟨2, 1, false, SubmissionStatus.accepted, ""⟩,
     ⟨3, 1, false, SubmissionStatus.accepted, ""⟩]
    ⟨1, 1, true, SubmissionStatus.accepted, ""⟩ (by decide) (by decide)
